import Mathlib

/-!
Verification of the AO_Launcher frontend core: the account/character
selection state machine, the launch-conflict resolution protocol and the
preference-copy target selection, embedded shallowly from
static/js/script.js and static/js/preferences.js.
-/

namespace AOLauncher

/-- A character of the roster: static/js/script.js keeps them as objects
with name, numeric id, selected flag and comment. -/
structure Character where
  name : String
  id : Int
  selected : Bool
  comment : String
  deriving DecidableEq, Inhabited

/-- An account of the roster, with its ordered character list. -/
structure Account where
  name : String
  password : String
  characters : List Character
  deriving DecidableEq, Inhabited

/-- The global appSettings object of static/js/script.js (lines 7-12). -/
structure AppSettings where
  gameFolder : String
  dllFolder : String
  accounts : List Account
  autoCycle : Bool
  deriving DecidableEq, Inhabited

/-- Map with the element index, starting the count at i: models a
JavaScript forEach or map callback that receives the array index. -/
def mapIdxFrom (f : Nat → α → β) : Nat → List α → List β
  | _, [] => []
  | i, a :: as => f i a :: mapIdxFrom f (i + 1) as

theorem length_mapIdxFrom (f : Nat → α → β) :
    ∀ (l : List α) (i : Nat), (mapIdxFrom f i l).length = l.length := by
  intro l
  induction l with
  | nil => intro i; rfl
  | cons a as ih => intro i; simp [mapIdxFrom, ih]

theorem mapIdxFrom_getElem? (f : Nat → α → β) :
    ∀ (l : List α) (i n : Nat), (mapIdxFrom f i l)[n]? = (l[n]?).map (f (i + n)) := by
  intro l
  induction l with
  | nil => intro i n; simp [mapIdxFrom]
  | cons a as ih =>
    intro i n
    cases n with
    | zero => simp [mapIdxFrom]
    | succ m =>
      simp only [mapIdxFrom, List.getElem?_cons_succ, ih]
      have hsum : i + 1 + m = i + (m + 1) := by omega
      rw [hsum]

/-- Number of selected characters of one account. -/
def selectedCount (acc : Account) : Nat :=
  acc.characters.countP (·.selected)

/-- The per-account selection invariant: at most one character of each
account is selected. -/
def selectionInvariant (accounts : List Account) : Prop :=
  ∀ acc ∈ accounts, selectedCount acc ≤ 1

instance (accounts : List Account) : Decidable (selectionInvariant accounts) := by
  unfold selectionInvariant
  infer_instance

/-- Total number of selected characters across the whole roster. -/
def totalSelected : List Account → Nat
  | [] => 0
  | a :: as => selectedCount a + totalSelected as

/-- The character at account index j, character index k, when both
indices are in range. -/
def charAt? (accounts : List Account) (j k : Nat) : Option Character :=
  (accounts[j]?).bind (fun a => a.characters[k]?)

/-- The per-character update of the plain-click forEach (script.js lines
230-238): the clicked index gets the intended state; when the intended
state is selected, every other character of the account is deselected. -/
def plainClickChars (intendedState : Bool) (charIndex : Nat)
    (chars : List Character) : List Character :=
  mapIdxFrom (fun cidx ch =>
    if cidx = charIndex then { ch with selected := intendedState }
    else if intendedState then { ch with selected := false }
    else ch) 0 chars

/-- Plain (non-exclusive) click on the checkbox of character charIndex of
account accIndex: script.js lines 224-238.  Only the clicked account is
touched.  Out-of-range indices cannot occur through the UI; the model
reads the current flag through a default. -/
def characterCheckboxPlainClick (accounts : List Account)
    (accIndex charIndex : Nat) : List Account :=
  let isCurrentlySelected :=
    (((accounts.getD accIndex default).characters.getD charIndex default)).selected
  let intendedState := !isCurrentlySelected
  mapIdxFrom (fun idx acc =>
    if idx = accIndex then
      { acc with characters := plainClickChars intendedState charIndex acc.characters }
    else acc) 0 accounts

/-- The per-account update of the Ctrl-click branch (script.js lines
219-223): a character stays selected exactly when it is the clicked
one. -/
def ctrlClickAccount (accIndex charIndex idx : Nat) (acc : Account) : Account :=
  { acc with characters :=
      (mapIdxFrom (fun cidx ch =>
          { ch with selected := decide (idx = accIndex ∧ cidx = charIndex) })
        0 acc.characters) }

/-- Ctrl-click on the checkbox of character charIndex of account accIndex:
script.js lines 216-223.  Every character of the whole roster is
deselected and only the clicked one is selected. -/
def characterCheckboxCtrlClick (accounts : List Account)
    (accIndex charIndex : Nat) : List Account :=
  mapIdxFrom (ctrlClickAccount accIndex charIndex) 0 accounts

/-- The character-checkbox onclick handler, script.js lines 207-244. -/
def characterCheckboxClick (accounts : List Account)
    (accIndex charIndex : Nat) (ctrlKey : Bool) : List Account :=
  if ctrlKey then characterCheckboxCtrlClick accounts accIndex charIndex
  else characterCheckboxPlainClick accounts accIndex charIndex

/-- A sequence of plain (non-exclusive) toggle clicks, applied in order. -/
def applyPlainToggles (accounts : List Account) : List (Nat × Nat) → List Account
  | [] => accounts
  | (ai, ci) :: rest => applyPlainToggles (characterCheckboxPlainClick accounts ai ci) rest

/-- The Clear Selection button, script.js lines 394-403: the resulting
roster, with every character deselected. -/
def clearSelectionClick (accounts : List Account) : List Account :=
  accounts.map (fun acc =>
    { acc with characters := acc.characters.map (fun ch => { ch with selected := false }) })

/-- The selectionCleared flag the Clear Selection handler computes: true
when some character was selected (and hence got deselected). -/
def clearSelectionChanged (accounts : List Account) : Bool :=
  accounts.any (fun acc => acc.characters.any (·.selected))

/-! ## Launch flow (launchBtn.onclick, script.js lines 427-732)

The handler is modelled as a pure function from the application settings
and the responses of the two external collaborator calls (the conflict
check and its recheck) to the list of externally visible actions it
performs, in order.  Post-launch result reporting and the best-effort
focus call are elided: the claims end at the launch command. -/

/-- One entry of the selectedCharacters list the launch handler collects
(script.js lines 431-442). -/
structure SelChar where
  accountName : String
  password : String
  characterId : Int
  deriving DecidableEq, Inhabited

/-- The status field of the conflict-check response consumed by the
status switch (script.js lines 605-656); other holds any unknown status
string, handled by the default branch. -/
inductive CheckStatus where
  | no_conflicts
  | conflicts_found
  | error
  | unsupported
  | other (s : String)
  deriving DecidableEq, Inhabited

/-- The conflict-check response body the handler reads. -/
structure CheckResult where
  status : CheckStatus
  conflictedAccounts : List String
  runningCharacters : List String
  message : String
  deriving DecidableEq, Inhabited

/-- The responses of the external collaborator during one launch click:
the first conflict check and (when auto-cycle closes windows) the
recheck.  ok models response.ok of the respective fetch. -/
structure Env where
  checkOk : Bool
  checkResult : CheckResult
  recheckOk : Bool
  recheckResult : CheckResult
  deriving DecidableEq, Inhabited

/-- An externally visible action of the launch handler, in program order. -/
inductive Event where
  | message (text kind : String)
  | checkConflicts
  | closeInstances (accounts : List String)
  | wait (ms : Nat)
  | recheckConflicts
  | launch (gameFolder dllFolder : String) (characters : List SelChar)
  deriving DecidableEq, Inhabited

/-- The selectedCharacters list collected at the start of the handler
(script.js lines 431-442): roster order, selected characters only. -/
def collectSelected (accounts : List Account) : List SelChar :=
  accounts.flatMap (fun acc =>
    acc.characters.filterMap (fun ch =>
      if ch.selected then some ⟨acc.name, acc.password, ch.id⟩ else none))

/-- The runningCharToAccount lookup (script.js lines 491-499): the first
account of the roster owning a character whose name matches the running
name case-insensitively; none when the running name is unmatched.  The
code caches this in a Map keyed by the lowercased running name, which is
equivalent to the direct lookup. -/
def firstAccountWithCharName (accounts : List Account) (runningCharName : String) :
    Option String :=
  (accounts.find? (fun acc =>
    acc.characters.any (fun c => c.name.toLower = runningCharName.toLower))).map (·.name)

/-- Resolving one selected character back to its character object
(script.js lines 503-512): first account with the given name, first
character with the given id. -/
def lookupSelectedCharName (accounts : List Account) (c : SelChar) : Option String :=
  match accounts.find? (fun a => a.name = c.accountName) with
  | none => none
  | some a => (a.characters.find? (fun ch => ch.id = c.characterId)).map (·.name)

/-- Replace-or-append update of an insertion-ordered association list,
modelling JavaScript Map.set. -/
def assocSet (m : List (String × β)) (k : String) (v : β) : List (String × β) :=
  match m with
  | [] => [(k, v)]
  | (k₀, v₀) :: rest => if k₀ = k then (k, v) :: rest else (k₀, v₀) :: assocSet rest k v

/-- Lookup in an insertion-ordered association list, modelling
JavaScript Map.get. -/
def assocGet (m : List (String × β)) (k : String) : Option β :=
  (m.find? (fun p => p.1 = k)).map (·.2)

/-- The selectedCharNamesByAccount map (script.js lines 502-512). -/
def selectedCharNamesByAccount (accounts : List Account) (sel : List SelChar) :
    List (String × String) :=
  sel.foldl (fun m c =>
    match lookupSelectedCharName accounts c with
    | some nm => assocSet m c.accountName nm
    | none => m) []

/-- Append-if-new insertion, modelling JavaScript Set.add. -/
def insertSet (s : List String) (x : String) : List String :=
  if x ∈ s then s else s ++ [x]

/-- One iteration of the accountsToClose loop (script.js lines 518-539):
attribute the running name to its first matching account; close that
account when it has no selected character name or the selected name
differs case-insensitively from the running one. -/
def accountsToCloseStep (accounts : List Account) (selNames : List (String × String))
    (s : List String) (runningCharName : String) : List String :=
  match firstAccountWithCharName accounts runningCharName with
  | none => s
  | some accountName =>
    match assocGet selNames accountName with
    | none => insertSet s accountName
    | some selectedCharName =>
      if selectedCharName.toLower ≠ runningCharName.toLower then insertSet s accountName
      else s

/-- The accountsToClose set (script.js lines 484-539), as the insertion
ordered list of account names. -/
def accountsToCloseList (accounts : List Account) (sel : List SelChar)
    (running : List String) : List String :=
  running.foldl (accountsToCloseStep accounts (selectedCharNamesByAccount accounts sel)) []

/-- The failedToClose list (script.js lines 578-584): still-running names
whose first matching account is one of the accounts that were asked to
close. -/
def failedToCloseList (accounts : List Account) (toClose : List String)
    (stillRunning : List String) : List String :=
  stillRunning.filter (fun charName =>
    match firstAccountWithCharName accounts charName with
    | some accName => toClose.contains accName
    | none => false)

/-- The remaining selection once conflicted accounts are filtered out
(script.js lines 621-623). -/
def remainingAfterConflicts (cr : CheckResult) (sel : List SelChar) : List SelChar :=
  sel.filter (fun c => !(cr.conflictedAccounts.contains c.accountName))

/-- The launch fetch (script.js lines 663-674), guarded by a non-empty
selection. -/
def launchFetch (s : AppSettings) (chars : List SelChar) : List Event :=
  if chars.isEmpty then [] else [Event.launch s.gameFolder s.dllFolder chars]

/-- The status switch (script.js lines 605-656) followed by the launch
fetch, acting on the latest check result.  Interpolated message text is
abbreviated; the sequence of events and their kinds is modelled. -/
def afterCheck (s : AppSettings) (sel : List SelChar) (cr : CheckResult) : List Event :=
  match cr.status with
  | CheckStatus.conflicts_found =>
      Event.message "Cannot launch - account conflicts detected" "error" ::
      (let remaining := remainingAfterConflicts cr sel
       if remaining.isEmpty then []
       else Event.message "Launching character(s) without conflicts..." "info" ::
            launchFetch s remaining)
  | CheckStatus.no_conflicts =>
      Event.message "No conflicts detected. Launching characters..." "info" ::
      launchFetch s sel
  | CheckStatus.error => [Event.message cr.message "error"]
  | CheckStatus.unsupported => [Event.message cr.message "error"]
  | CheckStatus.other _ =>
      Event.message "Unknown check status" "warning" :: launchFetch s sel

/-- The whole launch click (script.js lines 427-732) as its list of
externally visible actions. -/
def launchClick (s : AppSettings) (env : Env) : List Event :=
  let sel := collectSelected s.accounts
  if sel.isEmpty then
    [Event.message "No characters selected for launch." "warning"]
  else if s.gameFolder = "" ∨ s.dllFolder = "" then
    [Event.message "Please specify both Game Folder and DLL Folder paths." "error"]
  else
    Event.message "Checking for existing game instances..." "info" ::
    Event.checkConflicts ::
    (if env.checkOk then
       (if s.autoCycle then
          (let toClose := accountsToCloseList s.accounts sel env.checkResult.runningCharacters
           if toClose.isEmpty then afterCheck s sel env.checkResult
           else
             Event.closeInstances toClose ::
             Event.wait 5000 ::
             Event.recheckConflicts ::
             (if env.recheckOk = false then
                [Event.message "Error managing game windows. Please try again." "error"]
              else if (failedToCloseList s.accounts toClose
                        env.recheckResult.runningCharacters).isEmpty = false then
                [Event.message "Failed to close some game windows. Please close them manually."
                   "error"]
              else afterCheck s sel env.recheckResult))
        else afterCheck s sel env.checkResult)
     else
       [Event.message "Error checking for conflicts" "error"])

/-- The payloads of the launch commands a trace issues. -/
def launchesIn (evs : List Event) : List (List SelChar) :=
  evs.filterMap (fun e =>
    match e with
    | Event.launch _ _ cs => some cs
    | _ => none)

def isCloseEvent : Event → Bool
  | Event.closeInstances _ => true
  | _ => false

def isWaitEvent : Event → Bool
  | Event.wait _ => true
  | _ => false

def isRecheckEvent : Event → Bool
  | Event.recheckConflicts => true
  | _ => false

/-- The reading of claim C4 for membership in accountsToClose: some
running name is attributed to this account (first roster match,
case-insensitive) and the account either has no selected character name
or its selected name differs case-insensitively from the running one. -/
def shouldCloseSpec (accounts : List Account) (sel : List SelChar)
    (running : List String) (a : String) : Prop :=
  ∃ r ∈ running, firstAccountWithCharName accounts r = some a ∧
    ∀ nm, assocGet (selectedCharNamesByAccount accounts sel) a = some nm →
      nm.toLower ≠ r.toLower

/-! ## Preference copy target selection (static/js/preferences.js)

The page keeps a character lookup (key to account name, character id and
display name), the key of the source character and the set of selected
target keys; every handler that can touch these is modelled as one
operation of a state machine. -/

/-- One value of the characterLookup map (preferences.js lines 196-200). -/
structure PrefEntry where
  accountName : String
  characterId : Int
  characterName : String
  deriving DecidableEq, Inhabited

/-- The mutable state of the preferences page: characterLookup,
sourceCharacterKey (the empty string when no source is chosen) and
selectedTargets. -/
structure PrefState where
  lookup : List (String × PrefEntry)
  sourceCharacterKey : String
  selectedTargets : List String
  deriving DecidableEq, Inhabited

/-- getCharacterKey (preferences.js lines 182-184). -/
def getCharacterKey (accountName : String) (characterId : Int) : String :=
  accountName ++ "::" ++ toString characterId

/-- rebuildCharacterLookup (preferences.js lines 186-211): rebuild the
lookup from the accounts, drop a source key that no longer resolves, and
keep only selected targets that resolve and are not the source. -/
def rebuildCharacterLookup (accounts : List Account) (st : PrefState) : PrefState :=
  let lookup :=
    (accounts.filter (fun acc => acc.name ≠ "")).foldl (fun m acc =>
      acc.characters.foldl (fun m ch =>
        assocSet m (getCharacterKey acc.name ch.id)
          { accountName := acc.name, characterId := ch.id,
            characterName := if ch.name = "" then "Char " ++ toString ch.id else ch.name }) m) []
  let src :=
    if st.sourceCharacterKey ≠ "" ∧ ¬ (lookup.any (fun p => p.1 = st.sourceCharacterKey)) then ""
    else st.sourceCharacterKey
  { lookup := lookup,
    sourceCharacterKey := src,
    selectedTargets :=
      st.selectedTargets.filter (fun k => (lookup.any (fun p => p.1 = k)) && k ≠ src) }

/-- The operations that can touch the preference-page state: the
rebuild, the source dropdown change handler (preferences.js lines
559-568), a target checkbox change (lines 366-373), the per-account
All/None buttons (setAccountSelection, lines 400-415), Select All
(handleSelectAllTargets, lines 417-424) and Clear All
(handleClearAllTargets, lines 426-429). -/
inductive PrefOp where
  | rebuild (accounts : List Account)
  | changeSource (v : String)
  | toggleTarget (key : String) (checked : Bool)
  | setAccountSel (accounts : List Account) (accountName : String) (shouldSelect : Bool)
  | selectAllTargets
  | clearAllTargets
  deriving DecidableEq, Inhabited

/-- One step of the preference-page state machine. -/
def prefStep (st : PrefState) : PrefOp → PrefState
  | PrefOp.rebuild accounts => rebuildCharacterLookup accounts st
  | PrefOp.changeSource v =>
      if v ≠ "" then
        { st with sourceCharacterKey := v,
                  selectedTargets := st.selectedTargets.filter (fun k => k ≠ v) }
      else { st with sourceCharacterKey := "" }
  | PrefOp.toggleTarget key checked =>
      if checked then { st with selectedTargets := insertSet st.selectedTargets key }
      else { st with selectedTargets := st.selectedTargets.filter (fun k => k ≠ key) }
  | PrefOp.setAccountSel accounts accountName shouldSelect =>
      match accounts.find? (fun a => a.name = accountName) with
      | none => st
      | some account =>
        { st with selectedTargets :=
            account.characters.foldl (fun tgts ch =>
              let key := getCharacterKey accountName ch.id
              if key = st.sourceCharacterKey then tgts
              else if shouldSelect then insertSet tgts key
              else tgts.filter (fun k => k ≠ key)) st.selectedTargets }
  | PrefOp.selectAllTargets =>
      { st with selectedTargets :=
          (st.lookup.foldl (fun tgts p =>
            if p.1 ≠ st.sourceCharacterKey then insertSet tgts p.1 else tgts)
            st.selectedTargets) }
  | PrefOp.clearAllTargets => { st with selectedTargets := [] }

/-- Run a list of operations in order. -/
def runPrefOps (st : PrefState) : List PrefOp → PrefState
  | [] => st
  | op :: ops => runPrefOps (prefStep st op) ops

/-- A toggleTarget add only happens through an enabled checkbox: the
checkbox of the source character is rendered disabled (preferences.js
lines 353-364), so the toggled key differs from the current source. -/
def ValidPrefOp (st : PrefState) : PrefOp → Prop
  | PrefOp.toggleTarget key true => key ≠ st.sourceCharacterKey
  | _ => True

def ValidPrefOps : PrefState → List PrefOp → Prop
  | _, [] => True
  | st, op :: ops => ValidPrefOp st op ∧ ValidPrefOps (prefStep st op) ops

/-- buildTargetPayload (preferences.js lines 436-448): the account name
and character id of each selected target that resolves in the lookup. -/
def buildTargetPayload (st : PrefState) : List (String × Int) :=
  st.selectedTargets.foldl (fun acc key =>
    match assocGet st.lookup key with
    | some e => acc ++ [(e.accountName, e.characterId)]
    | none => acc) []

/-- getSourcePayload (preferences.js lines 450-458). -/
def getSourcePayload (st : PrefState) : Option (String × Int) :=
  if st.sourceCharacterKey = "" then none
  else (assocGet st.lookup st.sourceCharacterKey).map (fun e => (e.accountName, e.characterId))

/-- The exclusion invariant: a chosen source key is never a selected
target. -/
def PrefInv (st : PrefState) : Prop :=
  st.sourceCharacterKey ≠ "" → st.sourceCharacterKey ∉ st.selectedTargets

/-- Well-formedness of the lookup: every entry is stored under the key
built from its own account name and character id, as
rebuildCharacterLookup stores it. -/
def PrefWF (st : PrefState) : Prop :=
  ∀ p ∈ st.lookup, getCharacterKey p.2.accountName p.2.characterId = p.1

/-! ## Persisted configuration round trip (script.js lines 735-747 and 849-879) -/

/-- A character id as it sits in a JSON config document: a number, or a
string that the loader migrates with parseInt. -/
inductive JId where
  | num (n : Int)
  | str (s : String)
  deriving DecidableEq, Inhabited

/-- A character of the persisted JSON document. -/
structure DocCharacter where
  name : String
  id : JId
  selected : Bool
  comment : String
  deriving DecidableEq, Inhabited

/-- An account of the persisted JSON document. -/
structure DocAccount where
  name : String
  password : String
  characters : List DocCharacter
  deriving DecidableEq, Inhabited

/-- The persisted JSON document: gameFolder, dllFolder, accounts,
autoCycle (script.js line 736 serializes appSettings as a whole). -/
structure ConfigDoc where
  gameFolder : String
  dllFolder : String
  accounts : List DocAccount
  autoCycle : Bool
  deriving DecidableEq, Inhabited

/-- The digits-prefix value used by the parseInt model. -/
def digitsValue (cs : List Char) : Option Nat :=
  let ds := cs.takeWhile (·.isDigit)
  if ds.isEmpty then none
  else some (ds.foldl (fun n c => n * 10 + (c.toNat - ('0').toNat)) 0)

/-- Model of JavaScript parseInt(s, 10): skip leading whitespace, read an
optional sign and the longest digit prefix; none models NaN. -/
def parseIntJS (s : String) : Option Int :=
  let cs := s.toList.dropWhile (fun c => c = ' ' ∨ c = '\t' ∨ c = '\n' ∨ c = '\r')
  match cs with
  | '-' :: rest => (digitsValue rest).map (fun n => -(n : Int))
  | '+' :: rest => (digitsValue rest).map (fun n => (n : Int))
  | _ => (digitsValue cs).map (fun n => (n : Int))

/-- saveConfigBtn.onclick (script.js lines 735-747): serialize the
settings; character ids are written as the numbers they are. -/
def exportConfig (s : AppSettings) : ConfigDoc :=
  { gameFolder := s.gameFolder,
    dllFolder := s.dllFolder,
    accounts := s.accounts.map (fun a =>
      { name := a.name, password := a.password,
        characters := a.characters.map (fun c =>
          { name := c.name, id := JId.num c.id, selected := c.selected,
            comment := c.comment }) }),
    autoCycle := s.autoCycle }

/-- Migration of one loaded character (script.js lines 856-863): string
ids go through parseInt.  The roster model keeps integer ids, so a string
id that parses to NaN is modelled as a failed load. -/
def loadDocCharacter (c : DocCharacter) : Option Character :=
  match c.id with
  | JId.num n => some { name := c.name, id := n, selected := c.selected, comment := c.comment }
  | JId.str s => (parseIntJS s).map (fun n =>
      { name := c.name, id := n, selected := c.selected, comment := c.comment })

def loadDocAccount (a : DocAccount) : Option Account :=
  (a.characters.mapM loadDocCharacter).map (fun chs =>
    { name := a.name, password := a.password, characters := chs })

/-- loadConfigFileInput.onchange (script.js lines 849-879): after the
structural validation passes, migrate ids and replace the settings with
the loaded document. -/
def loadConfig (d : ConfigDoc) : Option AppSettings :=
  (d.accounts.mapM loadDocAccount).map (fun accs =>
    { gameFolder := d.gameFolder, dllFolder := d.dllFolder,
      accounts := accs, autoCycle := d.autoCycle })

/-! ## Roster edit operations (script.js lines 247-290 and 411-424) -/

/-- The add-char-btn onclick (script.js lines 247-267): an empty or
cancelled name prompt leaves the roster unchanged; a non-numeric id is
rejected before any mutation, so a reached push carries a parsed integer
id, selected false and an empty comment. -/
def addCharBtnClick (accounts : List Account) (accIndex : Nat)
    (charName : String) (charId : Int) : List Account :=
  if charName = "" then accounts
  else
    mapIdxFrom (fun i acc =>
      if i = accIndex then
        { acc with characters :=
            acc.characters ++ [{ name := charName, id := charId,
                                 selected := false, comment := "" }] }
      else acc) 0 accounts

/-- addAccountBtn.onclick (script.js lines 411-424): empty or cancelled
prompts leave the roster unchanged; otherwise the new account starts with
no characters. -/
def addAccountBtnClick (accounts : List Account) (accName password : String) :
    List Account :=
  if accName = "" then accounts
  else if password = "" then accounts
  else accounts ++ [{ name := accName, password := password, characters := [] }]

/-- The remove-char-btn onclick (script.js lines 270-279): splice one
character out of its account. -/
def removeCharBtnClick (accounts : List Account) (accIndex charIndex : Nat) :
    List Account :=
  mapIdxFrom (fun i acc =>
    if i = accIndex then { acc with characters := acc.characters.eraseIdx charIndex }
    else acc) 0 accounts

/-- The remove-account-btn onclick (script.js lines 282-290): splice one
account out of the roster. -/
def removeAccountBtnClick (accounts : List Account) (accIndex : Nat) : List Account :=
  accounts.eraseIdx accIndex

/-! ## Lemmas about the selection manager -/

theorem mapIdxFrom_congr {f g : Nat → α → β} (h : ∀ i a, f i a = g i a) :
    ∀ (l : List α) (i : Nat), mapIdxFrom f i l = mapIdxFrom g i l := by
  intro l
  induction l with
  | nil => intro i; rfl
  | cons a as ih => intro i; simp only [mapIdxFrom, h, ih]

theorem countSel_indicator (ci : Nat) :
    ∀ (chars : List Character) (i : Nat),
      ((mapIdxFrom (fun cidx ch => { ch with selected := decide (cidx = ci) }) i chars).countP
        (·.selected)) = if i ≤ ci ∧ ci < i + chars.length then 1 else 0 := by
  intro chars
  induction chars with
  | nil =>
    intro i
    simp only [mapIdxFrom, List.countP_nil, List.length_nil, Nat.add_zero]
    rw [if_neg (by omega)]
  | cons ch chs ih =>
    intro i
    simp only [mapIdxFrom, List.countP_cons, ih (i + 1), List.length_cons]
    by_cases h : i = ci
    · have hA : ¬ (i + 1 ≤ ci ∧ ci < i + 1 + chs.length) := by omega
      have hB : i ≤ ci ∧ ci < i + (chs.length + 1) := by omega
      rw [if_neg hA, if_pos hB]
      simp [h]
    · rw [decide_eq_false h]
      simp only [Bool.false_eq_true, if_false, Nat.add_zero]
      split_ifs <;> omega

theorem countSel_allfalse :
    ∀ (chars : List Character) (i : Nat),
      ((mapIdxFrom (fun _ ch => { ch with selected := false }) i chars).countP
        (·.selected)) = 0 := by
  intro chars
  induction chars with
  | nil => intro i; rfl
  | cons c cs ih => intro i; simp [mapIdxFrom, List.countP_cons, ih]

theorem countSel_ctrl_chars (ai ci idx : Nat) (chars : List Character) :
    ((mapIdxFrom (fun cidx ch => { ch with selected := decide (idx = ai ∧ cidx = ci) })
        0 chars).countP (·.selected))
      = if idx = ai then (if ci < chars.length then 1 else 0) else 0 := by
  by_cases h : idx = ai
  · subst h
    rw [@mapIdxFrom_congr _ _ _
      (fun cidx ch => { ch with selected := decide (cidx = ci) })
      (by intro i a; simp)]
    rw [countSel_indicator]
    simp
  · rw [@mapIdxFrom_congr _ _ _ (fun _ ch => { ch with selected := false })
      (by intro i a; simp [h])]
    rw [countSel_allfalse]
    simp [h]

theorem totalSel_ctrl_gt (ai ci : Nat) :
    ∀ (accounts : List Account) (i : Nat), ai < i →
      totalSelected (mapIdxFrom (ctrlClickAccount ai ci) i accounts) = 0 := by
  intro accounts
  induction accounts with
  | nil => intro i _; rfl
  | cons a as ih =>
    intro i hi
    simp only [mapIdxFrom, totalSelected, ctrlClickAccount, selectedCount]
    rw [countSel_ctrl_chars]
    rw [ih (i + 1) (by omega)]
    have : ¬ i = ai := by omega
    simp [this]

theorem totalSel_ctrl_le (ai ci : Nat) :
    ∀ (accounts : List Account) (i : Nat), i ≤ ai →
      totalSelected (mapIdxFrom (ctrlClickAccount ai ci) i accounts)
        = match accounts[ai - i]? with
          | none => 0
          | some a => if ci < a.characters.length then 1 else 0 := by
  intro accounts
  induction accounts with
  | nil => intro i _; rfl
  | cons a as ih =>
    intro i hi
    simp only [mapIdxFrom, totalSelected, ctrlClickAccount, selectedCount]
    rw [countSel_ctrl_chars]
    by_cases h : i = ai
    · rw [totalSel_ctrl_gt ai ci as (i + 1) (by omega)]
      have h0 : ai - i = 0 := by omega
      simp [h, h0]
    · have h1 : i + 1 ≤ ai := by omega
      rw [ih (i + 1) h1]
      have h2 : ai - i = (ai - (i + 1)) + 1 := by omega
      rw [h2]
      simp [h]

theorem charAt_ctrl (accounts : List Account) (ai ci j k : Nat) :
    charAt? (characterCheckboxCtrlClick accounts ai ci) j k
      = (charAt? accounts j k).map
          (fun ch => { ch with selected := decide (j = ai ∧ k = ci) }) := by
  simp only [charAt?, characterCheckboxCtrlClick, mapIdxFrom_getElem?, Nat.zero_add]
  cases haj : accounts[j]? with
  | none => rfl
  | some a =>
    simp only [Option.map_some', Option.some_bind, ctrlClickAccount, mapIdxFrom_getElem?,
      Nat.zero_add]

theorem countSel_plain_true (ci : Nat) (chars : List Character) :
    (plainClickChars true ci chars).countP (·.selected) ≤ 1 := by
  unfold plainClickChars
  rw [@mapIdxFrom_congr _ _ _
    (fun cidx ch => { ch with selected := decide (cidx = ci) })
    (by intro i a; by_cases h : i = ci <;> simp [h])]
  rw [countSel_indicator]
  split_ifs <;> omega

theorem countSel_plain_false (ci : Nat) (chars : List Character) :
    (plainClickChars false ci chars).countP (·.selected) ≤ chars.countP (·.selected) := by
  unfold plainClickChars
  rw [@mapIdxFrom_congr _ _ _
    (fun cidx ch => if cidx = ci then { ch with selected := false } else ch)
    (by intro i a; by_cases h : i = ci <;> simp [h])]
  have key : ∀ (l : List Character) (i : Nat),
      ((mapIdxFrom (fun cidx ch => if cidx = ci then { ch with selected := false } else ch)
          i l).countP (·.selected)) ≤ l.countP (·.selected) := by
    intro l
    induction l with
    | nil => intro i; simp [mapIdxFrom]
    | cons c cs ih =>
      intro i
      simp only [mapIdxFrom, List.countP_cons]
      by_cases h : i = ci
      · simp only [if_pos h]
        have h2 : (fun (x : Character) => x.selected) { c with selected := false } = false := rfl
        simp only [h2, Bool.false_eq_true, if_false, Nat.add_zero]
        exact le_trans (ih (i + 1)) (Nat.le_add_right _ _)
      · simp only [if_neg h]
        exact Nat.add_le_add_right (ih (i + 1)) _
  exact key chars 0

theorem plainClick_invariant (accounts : List Account) (ai ci : Nat)
    (h : selectionInvariant accounts) :
    selectionInvariant (characterCheckboxPlainClick accounts ai ci) := by
  intro acc hmem
  rw [List.mem_iff_getElem?] at hmem
  obtain ⟨j, hj⟩ := hmem
  unfold characterCheckboxPlainClick at hj
  rw [mapIdxFrom_getElem?] at hj
  cases haj : accounts[j]? with
  | none => rw [haj] at hj; simp at hj
  | some a0 =>
    rw [haj] at hj
    simp only [Nat.zero_add, Option.map_some', Option.some.injEq] at hj
    have ha0 : a0 ∈ accounts := List.getElem?_mem haj
    have hle := h a0 ha0
    by_cases hja : j = ai
    · rw [if_pos hja] at hj
      have hsc : selectedCount acc
          = (plainClickChars
              (!(((accounts.getD ai default).characters.getD ci default)).selected)
              ci a0.characters).countP (·.selected) := by
        rw [← hj]
        rfl
      rw [hsc]
      cases hb : (((accounts.getD ai default).characters.getD ci default)).selected with
      | true =>
        simp only [hb, Bool.not_true]
        exact le_trans (countSel_plain_false ci a0.characters)
          (by unfold selectedCount at hle; exact hle)
      | false =>
        simp only [hb, Bool.not_false]
        exact countSel_plain_true ci a0.characters
    · rw [if_neg hja] at hj
      rw [← hj]
      exact hle

theorem plainClick_locality (accounts : List Account) (ai ci j : Nat) (hj : j ≠ ai) :
    (characterCheckboxPlainClick accounts ai ci)[j]? = accounts[j]? := by
  unfold characterCheckboxPlainClick
  rw [mapIdxFrom_getElem?]
  cases accounts[j]? with
  | none => rfl
  | some a => simp [Nat.zero_add, hj]

theorem applyPlainToggles_invariant (calls : List (Nat × Nat)) :
    ∀ (accounts : List Account), selectionInvariant accounts →
      selectionInvariant (applyPlainToggles accounts calls) := by
  induction calls with
  | nil => intro accounts h; exact h
  | cons c rest ih =>
    intro accounts h
    exact ih _ (plainClick_invariant accounts c.1 c.2 h)

/-! ## Claim C1 -/

/-- C1, as stated, is false: a plain toggle only normalizes
the clicked account when the intended state is selected; from a roster
that already has several selected characters in one account, a deselect
toggle (and any toggle on another account) leaves the excess selection in
place.  Concretely: one account with three selected characters, one plain
click on its first character. -/
theorem c1_counterexample :
    ¬ (∀ (accounts : List Account) (calls : List (Nat × Nat)),
        selectionInvariant (applyPlainToggles accounts calls) ∧
        (∀ ai ci j, j ≠ ai →
          (characterCheckboxPlainClick accounts ai ci)[j]? = accounts[j]?)) := by
  intro h
  have h1 := (h [⟨"A", "pw", [⟨"x", 1, true, ""⟩, ⟨"y", 2, true, ""⟩, ⟨"z", 3, true, ""⟩]⟩]
    [(0, 0)]).1
  revert h1
  decide

/-- C1 (amended): for every roster already satisfying the per-account
invariant, any sequence of plain (non-exclusive) toggles preserves it,
and a plain toggle on one account never changes any other account. -/
theorem c1_plain_toggles (accounts : List Account) (calls : List (Nat × Nat))
    (hinv : selectionInvariant accounts) :
    selectionInvariant (applyPlainToggles accounts calls) ∧
    (∀ ai ci j, j ≠ ai →
      (characterCheckboxPlainClick accounts ai ci)[j]? = accounts[j]?) := by
  refine ⟨applyPlainToggles_invariant calls accounts hinv, ?_⟩
  intro ai ci j hj
  exact plainClick_locality accounts ai ci j hj

theorem c1_plain_toggles_witness :
    selectionInvariant (applyPlainToggles
      [⟨"A", "pw", [⟨"x", 1, true, ""⟩, ⟨"y", 2, false, ""⟩]⟩]
      [(0, 1), (0, 0)]) :=
  (c1_plain_toggles [⟨"A", "pw", [⟨"x", 1, true, ""⟩, ⟨"y", 2, false, ""⟩]⟩]
    [(0, 1), (0, 0)] (by decide)).1

/-! ## Claim C2 -/

/-- C2: an exclusive (Ctrl-click) toggle on character ci of account ai
leaves exactly one selected character in the whole roster, and a
character of the result is selected exactly when it is the clicked
one. -/
theorem c2_ctrl_click_exclusive (accounts : List Account) (ai ci : Nat)
    (ha : ai < accounts.length)
    (hc : ci < (accounts.getD ai default).characters.length) :
    totalSelected (characterCheckboxCtrlClick accounts ai ci) = 1 ∧
    (∀ j k ch, charAt? (characterCheckboxCtrlClick accounts ai ci) j k = some ch →
      (ch.selected = true ↔ (j = ai ∧ k = ci))) := by
  constructor
  · unfold characterCheckboxCtrlClick
    rw [totalSel_ctrl_le ai ci accounts 0 (Nat.zero_le ai)]
    have h1 : accounts[ai]? = some (accounts.getD ai default) := by
      rw [List.getD_eq_getElem?_getD, List.getElem?_eq_getElem ha]
      rfl
    simp only [Nat.sub_zero, h1]
    rw [if_pos hc]
  · intro j k ch hch
    rw [charAt_ctrl] at hch
    cases h0 : charAt? accounts j k with
    | none => rw [h0] at hch; simp at hch
    | some ch0 =>
      rw [h0] at hch
      simp only [Option.map_some', Option.some.injEq] at hch
      subst hch
      simp

theorem c2_ctrl_click_exclusive_witness :
    totalSelected (characterCheckboxCtrlClick
      [⟨"A", "pw", [⟨"x", 1, true, ""⟩, ⟨"y", 2, true, ""⟩]⟩,
       ⟨"B", "pw", [⟨"c", 3, true, ""⟩]⟩] 1 0) = 1 :=
  (c2_ctrl_click_exclusive
    [⟨"A", "pw", [⟨"x", 1, true, ""⟩, ⟨"y", 2, true, ""⟩]⟩,
     ⟨"B", "pw", [⟨"c", 3, true, ""⟩]⟩] 1 0 (by decide) (by decide)).1

/-! ## Claim C8 -/

/-- C8: clearing the selection twice gives the same roster as clearing it
once, the second call reports no change, and the first call reports a
change exactly when the roster actually changes (some character was
selected). -/
theorem c8_clear_selection_idempotent (accounts : List Account) :
    clearSelectionClick (clearSelectionClick accounts) = clearSelectionClick accounts ∧
    clearSelectionChanged (clearSelectionClick accounts) = false ∧
    (clearSelectionChanged accounts = true ↔ clearSelectionClick accounts ≠ accounts) := by
  have hmapfix : ∀ (l : List Character),
      (l.map (fun ch => { ch with selected := false })).map
          (fun ch => { ch with selected := false })
        = l.map (fun ch => { ch with selected := false }) := by
    intro l
    induction l with
    | nil => rfl
    | cons c cs ih =>
      simp only [List.map_cons]
      rw [ih]
  have hfix : ∀ (chars : List Character), chars.all (fun ch => !ch.selected) →
      chars.map (fun ch => { ch with selected := false }) = chars := by
    intro chars h
    induction chars with
    | nil => rfl
    | cons ch chs ih =>
      simp only [List.all_cons, Bool.and_eq_true, Bool.not_eq_true'] at h
      simp only [List.map_cons]
      rw [ih h.2]
      cases ch with
      | mk nm i sel cm =>
        have hs : sel = false := h.1
        subst hs
        rfl
  refine ⟨?_, ?_, ?_⟩
  · unfold clearSelectionClick
    rw [List.map_map]
    apply List.map_congr_left
    intro a _
    simp only [Function.comp_apply]
    show ({ name := a.name, password := a.password,
            characters := (a.characters.map (fun ch => { ch with selected := false })).map
              (fun ch => { ch with selected := false }) } : Account)
      = { name := a.name, password := a.password,
          characters := a.characters.map (fun ch => { ch with selected := false }) }
    rw [hmapfix]
  · unfold clearSelectionChanged clearSelectionClick
    rw [List.any_map, List.any_eq_false]
    intro a _
    simp only [Function.comp_apply]
    show ¬ ((a.characters.map (fun ch => { ch with selected := false })).any
      (fun x => x.selected)) = true
    rw [List.any_map]
    intro hcontra
    rw [List.any_eq_true] at hcontra
    obtain ⟨ch, _, hch⟩ := hcontra
    exact Bool.false_ne_true hch
  · constructor
    · intro hch heq
      unfold clearSelectionChanged at hch
      rw [List.any_eq_true] at hch
      obtain ⟨a, ha, hsel⟩ := hch
      rw [List.any_eq_true] at hsel
      obtain ⟨ch, hchm, hs⟩ := hsel
      rw [List.mem_iff_getElem?] at ha
      obtain ⟨j, hj⟩ := ha
      rw [List.mem_iff_getElem?] at hchm
      obtain ⟨k, hk⟩ := hchm
      have hres : (clearSelectionClick accounts)[j]?
          = some { a with characters :=
              a.characters.map (fun ch => { ch with selected := false }) } := by
        unfold clearSelectionClick
        rw [List.getElem?_map, hj]
        rfl
      rw [heq, hj] at hres
      have ha2 : a.characters
          = a.characters.map (fun ch => { ch with selected := false }) := by
        have hcs := congrArg (Option.map Account.characters) hres
        simpa using hcs
      have hk2 : (a.characters.map (fun ch => { ch with selected := false }))[k]?
          = some { ch with selected := false } := by
        rw [List.getElem?_map, hk]
        rfl
      rw [← ha2, hk] at hk2
      have hsf : ch.selected = false := by
        have hx := congrArg (Option.map Character.selected) hk2
        simpa using hx
      rw [hsf] at hs
      exact Bool.false_ne_true hs
    · intro hne
      by_contra hch
      apply hne
      have hvals : ∀ a ∈ accounts,
          a.characters.map (fun ch => { ch with selected := false }) = a.characters := by
        intro a ha
        apply hfix
        rw [List.all_eq_true]
        intro ch hc2
        cases hb : ch.selected with
        | false => rfl
        | true =>
          exfalso
          apply hch
          unfold clearSelectionChanged
          rw [List.any_eq_true]
          refine ⟨a, ha, ?_⟩
          rw [List.any_eq_true]
          exact ⟨ch, hc2, hb⟩
      unfold clearSelectionClick
      calc accounts.map (fun acc =>
              { acc with characters :=
                  acc.characters.map (fun ch => { ch with selected := false }) })
          = accounts.map id := by
            apply List.map_congr_left
            intro a ha
            show ({ name := a.name, password := a.password,
                    characters := a.characters.map
                      (fun ch => { ch with selected := false }) } : Account) = a
            rw [hvals a ha]
        _ = accounts := List.map_id accounts

/-! ## Lemmas about the launch flow -/

theorem launchesIn_nil : launchesIn [] = [] := rfl

theorem launchesIn_cons (e : Event) (evs : List Event) :
    launchesIn (e :: evs)
      = (match e with
         | Event.launch _ _ cs => cs :: launchesIn evs
         | _ => launchesIn evs) := by
  unfold launchesIn
  rw [List.filterMap_cons]
  cases e <;> rfl

theorem launchesIn_message (t k : String) (evs : List Event) :
    launchesIn (Event.message t k :: evs) = launchesIn evs := launchesIn_cons _ _

/-- The status switch issues no launch when the check reported an error
or unsupported platform, and otherwise launches at most once. -/
theorem launchesIn_afterCheck_conflicts (s : AppSettings) (sel : List SelChar)
    (cr : CheckResult) (hst : cr.status = CheckStatus.conflicts_found) :
    launchesIn (afterCheck s sel cr)
      = (if (remainingAfterConflicts cr sel).isEmpty then []
         else [remainingAfterConflicts cr sel]) := by
  unfold afterCheck
  rw [hst]
  rw [launchesIn_message]
  by_cases hre : (remainingAfterConflicts cr sel).isEmpty
  · rw [if_pos hre, if_pos hre]
    rfl
  · rw [if_neg hre, if_neg hre]
    rw [launchesIn_message]
    unfold launchFetch
    rw [if_neg hre]
    rfl

/-- A count of protocol events (close, wait, recheck) in the status
switch: there are none, whatever the status. -/
theorem afterCheck_countP (s : AppSettings) (sel : List SelChar) (cr : CheckResult)
    (p : Event → Bool)
    (hm : ∀ t k, p (Event.message t k) = false)
    (hl : ∀ g d cs, p (Event.launch g d cs) = false) :
    (afterCheck s sel cr).countP p = 0 := by
  have hfetch : ∀ chars, (launchFetch s chars).countP p = 0 := by
    intro chars
    unfold launchFetch
    split_ifs
    · rfl
    · simp [List.countP_cons, hl]
  obtain ⟨st, ca, rc, msg⟩ := cr
  cases st with
  | no_conflicts => simp [afterCheck, List.countP_cons, hm, hfetch]
  | conflicts_found =>
    simp only [afterCheck]
    split_ifs with hre
    · simp [List.countP_cons, hm]
    · simp [List.countP_cons, hm, hfetch]
  | error => simp [afterCheck, List.countP_cons, hm]
  | unsupported => simp [afterCheck, List.countP_cons, hm]
  | other str => simp [afterCheck, List.countP_cons, hm, hfetch]

/-! ## Claim C3 -/

/-- C3: when the check reports conflicts_found, exactly the selected
characters whose account is conflicted are removed, the remainder (when
non-empty) is launched as-is, an empty remainder launches nothing, and an
error or unsupported check launches nothing at all. -/
theorem c3_conflict_filtering (s : AppSettings) (cr : CheckResult) (sel : List SelChar) :
    (cr.status = CheckStatus.conflicts_found →
      (∀ c, c ∈ remainingAfterConflicts cr sel ↔
        (c ∈ sel ∧ c.accountName ∉ cr.conflictedAccounts)) ∧
      launchesIn (afterCheck s sel cr)
        = (if (remainingAfterConflicts cr sel).isEmpty then []
           else [remainingAfterConflicts cr sel])) ∧
    ((cr.status = CheckStatus.error ∨ cr.status = CheckStatus.unsupported) →
      launchesIn (afterCheck s sel cr) = []) := by
  constructor
  · intro hst
    refine ⟨?_, launchesIn_afterCheck_conflicts s sel cr hst⟩
    intro c
    unfold remainingAfterConflicts
    rw [List.mem_filter]
    constructor
    · rintro ⟨hmem, hcond⟩
      refine ⟨hmem, ?_⟩
      intro hin
      rw [Bool.not_eq_true'] at hcond
      rw [← @List.elem_iff _ _ _ c.accountName cr.conflictedAccounts] at hin
      unfold List.contains at hcond
      rw [hin] at hcond
      cases hcond
    · rintro ⟨hmem, hnotin⟩
      refine ⟨hmem, ?_⟩
      rw [Bool.not_eq_true']
      unfold List.contains
      cases helem : cr.conflictedAccounts.elem c.accountName
      · rfl
      · exact absurd (List.elem_iff.mp helem) hnotin
  · intro hst
    unfold afterCheck
    rcases hst with hst | hst <;> rw [hst] <;> rfl

/-! ## Claim C6 -/

/-- C6: an empty selection or a missing configured path makes the launch
click produce exactly one message and nothing else: no conflict check, no
window closure, no launch. -/
theorem c6_fail_fast (s : AppSettings) (env : Env)
    (h : collectSelected s.accounts = [] ∨ s.gameFolder = "" ∨ s.dllFolder = "") :
    ∃ text kind, launchClick s env = [Event.message text kind] := by
  by_cases hsel : (collectSelected s.accounts).isEmpty
  · refine ⟨"No characters selected for launch.", "warning", ?_⟩
    unfold launchClick
    rw [if_pos hsel]
  · have hpaths : s.gameFolder = "" ∨ s.dllFolder = "" := by
      rcases h with h | h | h
      · rw [h] at hsel
        exact absurd rfl hsel
      · exact Or.inl h
      · exact Or.inr h
    refine ⟨"Please specify both Game Folder and DLL Folder paths.", "error", ?_⟩
    unfold launchClick
    rw [if_neg hsel, if_pos hpaths]

theorem c6_fail_fast_witness :
    ∃ text kind,
      launchClick ⟨"", "", [], false⟩ default = [Event.message text kind] :=
  c6_fail_fast ⟨"", "", [], false⟩ default (Or.inl rfl)

/-! ## Claim C5 -/

/-- C5: on every launch click, either the auto-cycle close path runs -
then the trace contains exactly one close request, immediately followed
by the single fixed 5000 ms wait and the single recheck, and no other
wait or recheck anywhere - or none of close, wait and recheck occur at
all.  In particular the recheck is never retried. -/
theorem c5_single_recheck (s : AppSettings) (env : Env) :
    (∃ toClose pre rest,
        launchClick s env
          = pre ++ Event.closeInstances toClose :: Event.wait 5000 ::
              Event.recheckConflicts :: rest ∧
        (launchClick s env).countP isCloseEvent = 1 ∧
        (launchClick s env).countP isWaitEvent = 1 ∧
        (launchClick s env).countP isRecheckEvent = 1) ∨
    ((launchClick s env).countP isCloseEvent = 0 ∧
     (launchClick s env).countP isWaitEvent = 0 ∧
     (launchClick s env).countP isRecheckEvent = 0) := by
  have hmC : ∀ t k, isCloseEvent (Event.message t k) = false := fun _ _ => rfl
  have hlC : ∀ g d cs, isCloseEvent (Event.launch g d cs) = false := fun _ _ _ => rfl
  have hmW : ∀ t k, isWaitEvent (Event.message t k) = false := fun _ _ => rfl
  have hlW : ∀ g d cs, isWaitEvent (Event.launch g d cs) = false := fun _ _ _ => rfl
  have hmR : ∀ t k, isRecheckEvent (Event.message t k) = false := fun _ _ => rfl
  have hlR : ∀ g d cs, isRecheckEvent (Event.launch g d cs) = false := fun _ _ _ => rfl
  unfold launchClick
  by_cases hsel : (collectSelected s.accounts).isEmpty
  · rw [if_pos hsel]
    right
    refine ⟨rfl, rfl, rfl⟩
  · rw [if_neg hsel]
    by_cases hpaths : s.gameFolder = "" ∨ s.dllFolder = ""
    · rw [if_pos hpaths]
      right
      refine ⟨rfl, rfl, rfl⟩
    · rw [if_neg hpaths]
      by_cases hok : env.checkOk
      · rw [if_pos hok]
        by_cases hauto : s.autoCycle
        · rw [if_pos hauto]
          by_cases hclose : (accountsToCloseList s.accounts (collectSelected s.accounts)
              env.checkResult.runningCharacters).isEmpty
          · rw [if_pos hclose]
            right
            refine ⟨?_, ?_, ?_⟩ <;>
              simp [List.countP_cons, afterCheck_countP, hmC, hlC, hmW, hlW, hmR, hlR,
                isCloseEvent, isWaitEvent, isRecheckEvent]
          · rw [if_neg hclose]
            left
            refine ⟨_, [Event.message "Checking for existing game instances..." "info",
              Event.checkConflicts], _, rfl, ?_, ?_, ?_⟩ <;>
              · simp only [List.countP_cons]
                split_ifs <;>
                  simp_all [afterCheck_countP, hmC, hlC, hmW, hlW, hmR, hlR,
                    List.countP_cons, isCloseEvent, isWaitEvent, isRecheckEvent]
        · rw [if_neg hauto]
          right
          refine ⟨?_, ?_, ?_⟩ <;>
            simp [List.countP_cons, afterCheck_countP, hmC, hlC, hmW, hlW, hmR, hlR,
              isCloseEvent, isWaitEvent, isRecheckEvent]
      · rw [if_neg hok]
        right
        refine ⟨rfl, rfl, rfl⟩

/-! ## Lemmas for the auto-cycle close set -/

theorem mem_insertSet (s : List String) (x a : String) :
    a ∈ insertSet s x ↔ a ∈ s ∨ a = x := by
  unfold insertSet
  split_ifs with h
  · constructor
    · exact fun hm => Or.inl hm
    · rintro (hm | rfl)
      · exact hm
      · exact h
  · rw [List.mem_append, List.mem_singleton]

theorem mem_accountsToCloseStep (accounts : List Account)
    (selNames : List (String × String)) (st : List String) (r a : String) :
    a ∈ accountsToCloseStep accounts selNames st r ↔
      a ∈ st ∨ (firstAccountWithCharName accounts r = some a ∧
        ∀ nm, assocGet selNames a = some nm → nm.toLower ≠ r.toLower) := by
  unfold accountsToCloseStep
  cases hfa : firstAccountWithCharName accounts r with
  | none => simp
  | some accName =>
    dsimp only
    cases hsg : assocGet selNames accName with
    | none =>
      rw [mem_insertSet]
      constructor
      · rintro (hm | rfl)
        · exact Or.inl hm
        · refine Or.inr ⟨rfl, ?_⟩
          intro nm hnm
          rw [hsg] at hnm
          cases hnm
      · rintro (hm | ⟨h1, _⟩)
        · exact Or.inl hm
        · injection h1 with h1
          exact Or.inr h1.symm
    | some selName =>
      dsimp only
      by_cases hdiff : selName.toLower ≠ r.toLower
      · rw [if_pos hdiff, mem_insertSet]
        constructor
        · rintro (hm | rfl)
          · exact Or.inl hm
          · refine Or.inr ⟨rfl, ?_⟩
            intro nm hnm
            rw [hsg] at hnm
            injection hnm with hnm
            rw [← hnm]
            exact hdiff
        · rintro (hm | ⟨h1, _⟩)
          · exact Or.inl hm
          · injection h1 with h1
            exact Or.inr h1.symm
      · rw [if_neg hdiff]
        constructor
        · exact fun hm => Or.inl hm
        · rintro (hm | ⟨h1, h2⟩)
          · exact hm
          · exfalso
            injection h1 with h1
            rw [h1] at hsg
            exact hdiff (h2 selName hsg)

theorem mem_accountsToCloseFold (accounts : List Account)
    (selNames : List (String × String)) :
    ∀ (running : List String) (st : List String) (a : String),
      a ∈ running.foldl (accountsToCloseStep accounts selNames) st ↔
        a ∈ st ∨ ∃ r ∈ running, (firstAccountWithCharName accounts r = some a ∧
          ∀ nm, assocGet selNames a = some nm → nm.toLower ≠ r.toLower) := by
  intro running
  induction running with
  | nil => intro st a; simp
  | cons r rs ih =>
    intro st a
    rw [List.foldl_cons, ih, mem_accountsToCloseStep]
    constructor
    · rintro ((hm | hc) | ⟨r2, hr2, hc2⟩)
      · exact Or.inl hm
      · exact Or.inr ⟨r, List.mem_cons_self r rs, hc⟩
      · exact Or.inr ⟨r2, List.mem_cons_of_mem r hr2, hc2⟩
    · rintro (hm | ⟨r2, hr2, hc2⟩)
      · exact Or.inl (Or.inl hm)
      · rcases List.mem_cons.mp hr2 with rfl | hr3
        · exact Or.inl (Or.inr hc2)
        · exact Or.inr ⟨r2, hr3, hc2⟩

theorem failedToCloseList_nil (accounts : List Account) :
    ∀ (stillRunning : List String), failedToCloseList accounts [] stillRunning = [] := by
  intro still
  induction still with
  | nil => rfl
  | cons x xs ih =>
    unfold failedToCloseList at ih ⊢
    rw [List.filter_cons]
    cases hfa : firstAccountWithCharName accounts x with
    | none => simpa [hfa] using ih
    | some nm => simpa [hfa, List.contains] using ih

/-! ## Claim C4 -/

/-- C4: under auto-cycle, membership in accountsToClose is exactly: some
running name is matched (first roster account, case-insensitive) to this
account and the account has no selected character name or a selected
name that differs case-insensitively; and when, after the close and the
recheck, the failed-to-close list is non-empty, the click aborts with the
could-not-close error and issues no launch command. -/
theorem c4_auto_cycle_close (s : AppSettings) (env : Env) (a : String)
    (hauto : s.autoCycle = true) :
    (a ∈ accountsToCloseList s.accounts (collectSelected s.accounts)
        env.checkResult.runningCharacters ↔
      shouldCloseSpec s.accounts (collectSelected s.accounts)
        env.checkResult.runningCharacters a) ∧
    (env.checkOk = true → env.recheckOk = true →
      (collectSelected s.accounts).isEmpty = false →
      ¬ (s.gameFolder = "" ∨ s.dllFolder = "") →
      (failedToCloseList s.accounts
          (accountsToCloseList s.accounts (collectSelected s.accounts)
            env.checkResult.runningCharacters)
          env.recheckResult.runningCharacters).isEmpty = false →
      launchesIn (launchClick s env) = [] ∧
      Event.message "Failed to close some game windows. Please close them manually." "error"
        ∈ launchClick s env) := by
  constructor
  · unfold accountsToCloseList shouldCloseSpec
    rw [mem_accountsToCloseFold]
    simp
  · intro hok hreok hsel hpaths hfail
    have hcl : ¬ (accountsToCloseList s.accounts (collectSelected s.accounts)
        env.checkResult.runningCharacters).isEmpty = true := by
      intro hc
      rw [List.isEmpty_iff] at hc
      rw [hc, failedToCloseList_nil] at hfail
      cases hfail
    unfold launchClick
    rw [if_neg (show ¬ (collectSelected s.accounts).isEmpty = true by
      rw [hsel]; exact Bool.false_ne_true)]
    rw [if_neg hpaths, if_pos hok, if_pos hauto, if_neg hcl]
    rw [if_neg (show ¬ (env.recheckOk = false) by
      rw [hreok]; intro hx; cases hx)]
    rw [if_pos hfail]
    constructor
    · rfl
    · simp [List.mem_cons]

/-- Concrete roster for the C4 witness: account A has Alice running but
nothing selected, account B has Bob selected; the recheck still reports
Alice running, so the close failed and the launch must abort. -/
def c4wSettings : AppSettings :=
  ⟨"g", "d", [⟨"A", "p", [⟨"Alice", 1, false, ""⟩]⟩, ⟨"B", "p", [⟨"Bob", 2, true, ""⟩]⟩], true⟩

def c4wEnv : Env :=
  ⟨true, ⟨CheckStatus.no_conflicts, [], ["Alice"], ""⟩,
   true, ⟨CheckStatus.no_conflicts, [], ["Alice"], ""⟩⟩

theorem c4_auto_cycle_close_witness :
    ("A" ∈ accountsToCloseList c4wSettings.accounts (collectSelected c4wSettings.accounts)
        c4wEnv.checkResult.runningCharacters ↔
      shouldCloseSpec c4wSettings.accounts (collectSelected c4wSettings.accounts)
        c4wEnv.checkResult.runningCharacters "A") ∧
    (c4wEnv.checkOk = true → c4wEnv.recheckOk = true →
      (collectSelected c4wSettings.accounts).isEmpty = false →
      ¬ (c4wSettings.gameFolder = "" ∨ c4wSettings.dllFolder = "") →
      (failedToCloseList c4wSettings.accounts
          (accountsToCloseList c4wSettings.accounts (collectSelected c4wSettings.accounts)
            c4wEnv.checkResult.runningCharacters)
          c4wEnv.recheckResult.runningCharacters).isEmpty = false →
      launchesIn (launchClick c4wSettings c4wEnv) = [] ∧
      Event.message "Failed to close some game windows. Please close them manually." "error"
        ∈ launchClick c4wSettings c4wEnv) :=
  c4_auto_cycle_close c4wSettings c4wEnv "A" rfl

/-! ## Lemmas about the preference-copy target selection -/

theorem mem_assocSet {β : Type} (k : String) (v : β) :
    ∀ (m : List (String × β)) (p : String × β), p ∈ assocSet m k v → p ∈ m ∨ p = (k, v) := by
  intro m
  induction m with
  | nil =>
    intro p hp
    unfold assocSet at hp
    rw [List.mem_singleton] at hp
    exact Or.inr hp
  | cons q rest ih =>
    intro p hp
    unfold assocSet at hp
    split_ifs at hp with h
    · rcases List.mem_cons.mp hp with rfl | hp2
      · exact Or.inr rfl
      · exact Or.inl (List.mem_cons_of_mem q hp2)
    · rcases List.mem_cons.mp hp with rfl | hp2
      · exact Or.inl (List.mem_cons_self q rest)
      · rcases ih p hp2 with h3 | h3
        · exact Or.inl (List.mem_cons_of_mem q h3)
        · exact Or.inr h3

/-- Well-formedness of a lookup association list: every entry sits under
the key built from its own account name and character id. -/
def lookupWF (m : List (String × PrefEntry)) : Prop :=
  ∀ p ∈ m, getCharacterKey p.2.accountName p.2.characterId = p.1

theorem lookupWF_innerFold (accName : String) :
    ∀ (chars : List Character) (m : List (String × PrefEntry)), lookupWF m →
      lookupWF (chars.foldl (fun m ch =>
        assocSet m (getCharacterKey accName ch.id)
          { accountName := accName, characterId := ch.id,
            characterName := if ch.name = "" then "Char " ++ toString ch.id else ch.name }) m) := by
  intro chars
  induction chars with
  | nil => intro m hm; exact hm
  | cons ch rest ih =>
    intro m hm
    rw [List.foldl_cons]
    apply ih
    intro p hp
    rcases mem_assocSet _ _ _ p hp with h1 | h1
    · exact hm p h1
    · rw [h1]

theorem lookupWF_outerFold :
    ∀ (accs : List Account) (m : List (String × PrefEntry)), lookupWF m →
      lookupWF (accs.foldl (fun m acc =>
        acc.characters.foldl (fun m ch =>
          assocSet m (getCharacterKey acc.name ch.id)
            { accountName := acc.name, characterId := ch.id,
              characterName := if ch.name = "" then "Char " ++ toString ch.id
                               else ch.name }) m) m) := by
  intro accs
  induction accs with
  | nil => intro m hm; exact hm
  | cons acc rest ih =>
    intro m hm
    rw [List.foldl_cons]
    exact ih _ (lookupWF_innerFold acc.name acc.characters m hm)

theorem prefWF_rebuild (accounts : List Account) (st : PrefState) :
    PrefWF (rebuildCharacterLookup accounts st) := by
  intro p hp
  exact lookupWF_outerFold (accounts.filter (fun acc => acc.name ≠ "")) []
    (by intro q hq; cases hq) p hp

theorem prefWF_step (st : PrefState) (op : PrefOp) (hwf : PrefWF st) :
    PrefWF (prefStep st op) := by
  cases op with
  | rebuild accounts => exact prefWF_rebuild accounts st
  | changeSource v =>
    simp only [prefStep]
    split_ifs <;> exact hwf
  | toggleTarget key checked =>
    simp only [prefStep]
    split_ifs <;> exact hwf
  | setAccountSel accounts accountName shouldSelect =>
    simp only [prefStep]
    cases accounts.find? (fun a => a.name = accountName) <;> exact hwf
  | selectAllTargets => exact hwf
  | clearAllTargets => exact hwf

theorem notMem_filter_ne (l : List String) (x : String) :
    x ∉ l.filter (fun k => k ≠ x) := by
  intro hx
  rw [List.mem_filter] at hx
  have := hx.2
  simp at this

theorem notMem_insertSet (s : List String) (x y : String) (hs : x ∉ s) (hxy : x ≠ y) :
    x ∉ insertSet s y := by
  intro hx
  rw [mem_insertSet] at hx
  rcases hx with hx | hx
  · exact hs hx
  · exact hxy hx

theorem notMem_filter_of_notMem (l : List String) (p : String → Bool) (x : String)
    (hx : x ∉ l) : x ∉ l.filter p := by
  intro hmem
  exact hx (List.mem_filter.mp hmem).1

theorem prefInv_rebuild (accounts : List Account) (st : PrefState) :
    PrefInv (rebuildCharacterLookup accounts st) := by
  intro hne hmem
  unfold rebuildCharacterLookup at hmem hne
  dsimp only at hmem hne
  rw [List.mem_filter] at hmem
  have h2 := hmem.2
  rw [Bool.and_eq_true] at h2
  have h3 := h2.2
  simp at h3

theorem prefInv_changeSource (st : PrefState) (v : String) :
    PrefInv (prefStep st (PrefOp.changeSource v)) := by
  simp only [prefStep]
  split_ifs with hv
  · intro hne hmem
    exact notMem_filter_ne st.selectedTargets v hmem
  · intro hne hmem
    exact hne rfl

theorem prefInv_step (st : PrefState) (op : PrefOp) (hv : ValidPrefOp st op)
    (hinv : PrefInv st) : PrefInv (prefStep st op) := by
  cases op with
  | rebuild accounts => exact prefInv_rebuild accounts st
  | changeSource v => exact prefInv_changeSource st v
  | toggleTarget key checked =>
    cases checked with
    | true =>
      intro hne
      exact notMem_insertSet st.selectedTargets st.sourceCharacterKey key (hinv hne)
        (fun he => hv he.symm)
    | false =>
      intro hne
      exact notMem_filter_of_notMem st.selectedTargets _ _ (hinv hne)
  | setAccountSel accounts accountName shouldSelect =>
    simp only [prefStep]
    cases accounts.find? (fun a => a.name = accountName) with
    | none => exact hinv
    | some account =>
      intro hne
      have key : ∀ (chars : List Character) (tgts : List String),
          st.sourceCharacterKey ∉ tgts →
          st.sourceCharacterKey ∉ chars.foldl (fun tgts ch =>
            if getCharacterKey accountName ch.id = st.sourceCharacterKey then tgts
            else if shouldSelect then insertSet tgts (getCharacterKey accountName ch.id)
            else tgts.filter (fun k => k ≠ getCharacterKey accountName ch.id)) tgts := by
        intro chars
        induction chars with
        | nil => intro tgts ht; exact ht
        | cons ch rest ih =>
          intro tgts ht
          rw [List.foldl_cons]
          apply ih
          split_ifs with h1 h2
          · exact ht
          · exact notMem_insertSet tgts st.sourceCharacterKey _ ht (fun he => h1 he.symm)
          · exact notMem_filter_of_notMem tgts _ _ ht
      exact key account.characters st.selectedTargets (hinv hne)
  | selectAllTargets =>
    simp only [prefStep]
    intro hne
    have key : ∀ (entries : List (String × PrefEntry)) (tgts : List String),
        st.sourceCharacterKey ∉ tgts →
        st.sourceCharacterKey ∉ entries.foldl (fun tgts p =>
          if p.1 ≠ st.sourceCharacterKey then insertSet tgts p.1 else tgts) tgts := by
      intro entries
      induction entries with
      | nil => intro tgts ht; exact ht
      | cons p rest ih =>
        intro tgts ht
        rw [List.foldl_cons]
        apply ih
        split_ifs with h1
        · exact notMem_insertSet tgts st.sourceCharacterKey p.1 ht (fun he => h1 he.symm)
        · exact ht
    exact key st.lookup st.selectedTargets (hinv hne)
  | clearAllTargets =>
    intro hne hmem
    cases hmem

theorem runPrefOps_wf_inv :
    ∀ (ops : List PrefOp) (st : PrefState), PrefWF st → PrefInv st →
      ValidPrefOps st ops →
      PrefWF (runPrefOps st ops) ∧ PrefInv (runPrefOps st ops) := by
  intro ops
  induction ops with
  | nil => intro st hwf hinv _; exact ⟨hwf, hinv⟩
  | cons op rest ih =>
    intro st hwf hinv hvalid
    exact ih (prefStep st op) (prefWF_step st op hwf)
      (prefInv_step st op hvalid.1 hinv) hvalid.2

theorem assocGet_eq_some {β : Type} (m : List (String × β)) (k : String) (v : β)
    (h : assocGet m k = some v) : ∃ pr ∈ m, pr.1 = k ∧ pr.2 = v := by
  unfold assocGet at h
  cases hf : m.find? (fun p => p.1 = k) with
  | none => rw [hf] at h; cases h
  | some pr =>
    rw [hf] at h
    injection h with h
    have h1 := List.find?_some hf
    have h2 := List.mem_of_find?_eq_some hf
    refine ⟨pr, h2, ?_, h⟩
    simpa using h1

theorem mem_buildTargetPayload (st : PrefState) (q : String × Int) :
    q ∈ buildTargetPayload st ↔
      ∃ k ∈ st.selectedTargets, ∃ e, assocGet st.lookup k = some e ∧
        q = (e.accountName, e.characterId) := by
  unfold buildTargetPayload
  have key : ∀ (keys : List String) (acc0 : List (String × Int)),
      q ∈ keys.foldl (fun acc key =>
        match assocGet st.lookup key with
        | some e => acc ++ [(e.accountName, e.characterId)]
        | none => acc) acc0 ↔
      q ∈ acc0 ∨ ∃ k ∈ keys, ∃ e, assocGet st.lookup k = some e ∧
        q = (e.accountName, e.characterId) := by
    intro keys
    induction keys with
    | nil => intro acc0; simp
    | cons k rest ih =>
      intro acc0
      rw [List.foldl_cons, ih]
      cases hg : assocGet st.lookup k with
      | none =>
        constructor
        · rintro (hm | ⟨k2, hk2, e2, he2, hq⟩)
          · exact Or.inl hm
          · exact Or.inr ⟨k2, List.mem_cons_of_mem k hk2, e2, he2, hq⟩
        · rintro (hm | ⟨k2, hk2, e2, he2, hq⟩)
          · exact Or.inl hm
          · rcases List.mem_cons.mp hk2 with rfl | hk3
            · rw [hg] at he2; cases he2
            · exact Or.inr ⟨k2, hk3, e2, he2, hq⟩
      | some e =>
        constructor
        · rintro (hm | ⟨k2, hk2, e2, he2, hq⟩)
          · rw [List.mem_append, List.mem_singleton] at hm
            rcases hm with hm | rfl
            · exact Or.inl hm
            · exact Or.inr ⟨k, List.mem_cons_self k rest, e, hg, rfl⟩
          · exact Or.inr ⟨k2, List.mem_cons_of_mem k hk2, e2, he2, hq⟩
        · rintro (hm | ⟨k2, hk2, e2, he2, hq⟩)
          · exact Or.inl (by rw [List.mem_append]; exact Or.inl hm)
          · rcases List.mem_cons.mp hk2 with rfl | hk3
            · rw [hg] at he2
              injection he2 with he2
              subst he2
              exact Or.inl (by rw [List.mem_append, List.mem_singleton]; exact Or.inr hq)
            · exact Or.inr ⟨k2, hk3, e2, he2, hq⟩
  rw [key]
  simp

theorem payload_excludes_source (st : PrefState) (hwf : PrefWF st) (hinv : PrefInv st) :
    ∀ p, getSourcePayload st = some p → p ∉ buildTargetPayload st := by
  intro p hp hmem
  unfold getSourcePayload at hp
  split_ifs at hp with hsrc
  cases hg : assocGet st.lookup st.sourceCharacterKey with
  | none => rw [hg] at hp; cases hp
  | some e0 =>
    rw [hg] at hp
    injection hp with hp
    rw [mem_buildTargetPayload] at hmem
    obtain ⟨k, hk, e, he, hq⟩ := hmem
    obtain ⟨pr0, hpr0, hk0, hv0⟩ := assocGet_eq_some _ _ _ hg
    obtain ⟨pr1, hpr1, hk1, hv1⟩ := assocGet_eq_some _ _ _ he
    have hkey0 : getCharacterKey e0.accountName e0.characterId = st.sourceCharacterKey := by
      rw [← hk0, ← hv0]
      exact hwf pr0 hpr0
    have hkey1 : getCharacterKey e.accountName e.characterId = k := by
      rw [← hk1, ← hv1]
      exact hwf pr1 hpr1
    rw [← hp] at hq
    dsimp only at hq
    have hacc : e.accountName = e0.accountName := (congrArg Prod.fst hq).symm
    have hid : e.characterId = e0.characterId := (congrArg Prod.snd hq).symm
    rw [hacc, hid, hkey0] at hkey1
    rw [← hkey1] at hk
    exact hinv hsrc hk

/-! ## Claim C7 -/

/-- C7: from any well-formed state whose source is not among the targets,
every valid sequence of preference-page operations keeps the source out
of the selected targets, so the target payload never contains the source
character; moreover the exclusion is re-established unconditionally by a
source change and by a lookup rebuild, from any state whatsoever. -/
theorem c7_source_never_target (st : PrefState) (ops : List PrefOp)
    (hwf : PrefWF st) (hinv : PrefInv st) (hvalid : ValidPrefOps st ops) :
    PrefInv (runPrefOps st ops) ∧
    (∀ p, getSourcePayload (runPrefOps st ops) = some p →
      p ∉ buildTargetPayload (runPrefOps st ops)) ∧
    (∀ (st2 : PrefState) (k : String), PrefInv (prefStep st2 (PrefOp.changeSource k))) ∧
    (∀ (accounts : List Account) (st2 : PrefState),
      PrefInv (rebuildCharacterLookup accounts st2)) := by
  obtain ⟨hwf2, hinv2⟩ := runPrefOps_wf_inv ops st hwf hinv hvalid
  exact ⟨hinv2, payload_excludes_source _ hwf2 hinv2,
    fun st2 k => prefInv_changeSource st2 k,
    fun accounts st2 => prefInv_rebuild accounts st2⟩

theorem c7_source_never_target_witness :
    PrefInv (runPrefOps ⟨[], "", []⟩
      [PrefOp.rebuild [⟨"A", "p", [⟨"Alice", 1, false, ""⟩]⟩],
       PrefOp.changeSource "A::1", PrefOp.selectAllTargets]) ∧
    (∀ p, getSourcePayload (runPrefOps ⟨[], "", []⟩
        [PrefOp.rebuild [⟨"A", "p", [⟨"Alice", 1, false, ""⟩]⟩],
         PrefOp.changeSource "A::1", PrefOp.selectAllTargets]) = some p →
      p ∉ buildTargetPayload (runPrefOps ⟨[], "", []⟩
        [PrefOp.rebuild [⟨"A", "p", [⟨"Alice", 1, false, ""⟩]⟩],
         PrefOp.changeSource "A::1", PrefOp.selectAllTargets])) ∧
    (∀ (st2 : PrefState) (k : String), PrefInv (prefStep st2 (PrefOp.changeSource k))) ∧
    (∀ (accounts : List Account) (st2 : PrefState),
      PrefInv (rebuildCharacterLookup accounts st2)) :=
  c7_source_never_target ⟨[], "", []⟩
    [PrefOp.rebuild [⟨"A", "p", [⟨"Alice", 1, false, ""⟩]⟩],
     PrefOp.changeSource "A::1", PrefOp.selectAllTargets]
    (by intro p hp; cases hp) (by intro h; exact absurd rfl h)
    ⟨trivial, trivial, trivial, trivial⟩

/-! ## Claim C9 -/

theorem mapM_loadDocCharacter_export :
    ∀ (chs : List Character),
      (chs.map (fun c => (⟨c.name, JId.num c.id, c.selected, c.comment⟩ : DocCharacter))).mapM
        loadDocCharacter = some chs := by
  intro chs
  induction chs with
  | nil => rfl
  | cons c cs ih =>
    rw [List.map_cons, List.mapM_cons, ih]
    rfl

theorem loadDocAccount_export (a : Account) :
    loadDocAccount ⟨a.name, a.password,
      a.characters.map (fun c => ⟨c.name, JId.num c.id, c.selected, c.comment⟩)⟩ = some a := by
  unfold loadDocAccount
  dsimp only
  rw [mapM_loadDocCharacter_export]
  rfl

theorem mapM_loadDocAccount_export :
    ∀ (accs : List Account),
      (accs.map (fun a => (⟨a.name, a.password,
        a.characters.map (fun c => ⟨c.name, JId.num c.id, c.selected, c.comment⟩)⟩ :
          DocAccount))).mapM loadDocAccount = some accs := by
  intro accs
  induction accs with
  | nil => rfl
  | cons a rest ih =>
    rw [List.map_cons, List.mapM_cons, loadDocAccount_export, ih]
    rfl

/-- C9: saving the settings to the persisted JSON document and loading
that document back restores the settings exactly - same accounts, same
passwords, same characters with the same numeric ids, names, comments
and selected flags - which is stronger than equality modulo the
name-sort the renderer reapplies. -/
theorem c9_config_round_trip (s : AppSettings) :
    loadConfig (exportConfig s) = some s := by
  unfold loadConfig exportConfig
  dsimp only
  rw [mapM_loadDocAccount_export]
  rfl

/-! ## Claim C10 -/

theorem selectionInvariant_getElem? (accounts : List Account) :
    selectionInvariant accounts ↔
      ∀ (j : Nat) (a : Account), accounts[j]? = some a → selectedCount a ≤ 1 := by
  constructor
  · intro h j a hj
    exact h a (List.getElem?_mem hj)
  · intro h a ha
    obtain ⟨j, hj⟩ := List.mem_iff_getElem?.mp ha
    exact h j a hj

theorem countSel_append_new (chs : List Character) (nm : String) (cid : Int) :
    (chs ++ [(⟨nm, cid, false, ""⟩ : Character)]).countP (·.selected)
      = chs.countP (·.selected) := by
  rw [List.countP_append]
  rfl

/-- C10: every roster edit preserves the at-most-one-selected invariant;
an added character carries selected false and an empty comment, an added
account carries no characters, and removals keep every remaining
character record (its selected flag included) as it was. -/
theorem c10_roster_edits (accounts : List Account) (hinv : selectionInvariant accounts) :
    (∀ i nm cid, selectionInvariant (addCharBtnClick accounts i nm cid) ∧
      (nm ≠ "" → ∀ j, (addCharBtnClick accounts i nm cid)[j]?
        = if j = i then
            (accounts[j]?).map (fun acc =>
              { acc with characters := acc.characters ++ [⟨nm, cid, false, ""⟩] })
          else accounts[j]?)) ∧
    (∀ nm pw, selectionInvariant (addAccountBtnClick accounts nm pw) ∧
      (nm ≠ "" → pw ≠ "" →
        addAccountBtnClick accounts nm pw = accounts ++ [⟨nm, pw, []⟩])) ∧
    (∀ i j, selectionInvariant (removeCharBtnClick accounts i j) ∧
      (∀ (k : Nat) (a2 : Account), (removeCharBtnClick accounts i j)[k]? = some a2 →
        ∃ (a1 : Account), accounts[k]? = some a1 ∧ a2.name = a1.name ∧
          a2.password = a1.password ∧ a2.characters.Sublist a1.characters)) ∧
    (∀ i, selectionInvariant (removeAccountBtnClick accounts i) ∧
      (removeAccountBtnClick accounts i).Sublist accounts) := by
  refine ⟨?_, ?_, ?_, ?_⟩
  · intro i nm cid
    constructor
    · unfold addCharBtnClick
      split_ifs with hnm
      · exact hinv
      · rw [selectionInvariant_getElem?]
        intro j a hj
        rw [mapIdxFrom_getElem?, Nat.zero_add] at hj
        cases haj : accounts[j]? with
        | none => rw [haj] at hj; cases hj
        | some a0 =>
          rw [haj, Option.map_some'] at hj
          injection hj with hj
          have hle := hinv a0 (List.getElem?_mem haj)
          by_cases hji : j = i
          · rw [if_pos hji] at hj
            rw [← hj]
            unfold selectedCount at hle ⊢
            rw [countSel_append_new]
            exact hle
          · rw [if_neg hji] at hj
            rw [← hj]
            exact hle
    · intro hnm j
      unfold addCharBtnClick
      rw [if_neg hnm, mapIdxFrom_getElem?, Nat.zero_add]
      cases haj : accounts[j]? with
      | none => split_ifs <;> rfl
      | some a0 =>
        rw [Option.map_some']
        split_ifs with hji <;> rfl
  · intro nm pw
    constructor
    · unfold addAccountBtnClick
      split_ifs with h1 h2
      · exact hinv
      · exact hinv
      · intro a ha
        rw [List.mem_append, List.mem_singleton] at ha
        rcases ha with ha | rfl
        · exact hinv a ha
        · unfold selectedCount
          simp
    · intro h1 h2
      unfold addAccountBtnClick
      rw [if_neg h1, if_neg h2]
  · intro i j
    have hframe : ∀ k, (removeCharBtnClick accounts i j)[k]?
        = (accounts[k]?).map (fun acc =>
            if k = i then { acc with characters := acc.characters.eraseIdx j } else acc) := by
      intro k
      unfold removeCharBtnClick
      rw [mapIdxFrom_getElem?, Nat.zero_add]
    constructor
    · rw [selectionInvariant_getElem?]
      intro k a hk
      rw [hframe k] at hk
      cases hak : accounts[k]? with
      | none => rw [hak] at hk; cases hk
      | some a0 =>
        rw [hak, Option.map_some'] at hk
        injection hk with hk
        have hle := hinv a0 (List.getElem?_mem hak)
        by_cases hki : k = i
        · rw [if_pos hki] at hk
          rw [← hk]
          unfold selectedCount at hle ⊢
          exact le_trans (List.Sublist.countP_le _ (List.eraseIdx_sublist a0.characters j)) hle
        · rw [if_neg hki] at hk
          rw [← hk]
          exact hle
    · intro k a2 hk
      rw [hframe k] at hk
      cases hak : accounts[k]? with
      | none => rw [hak] at hk; cases hk
      | some a1 =>
        rw [hak, Option.map_some'] at hk
        injection hk with hk
        refine ⟨a1, rfl, ?_⟩
        by_cases hki : k = i
        · rw [if_pos hki] at hk
          rw [← hk]
          exact ⟨rfl, rfl, List.eraseIdx_sublist a1.characters j⟩
        · rw [if_neg hki] at hk
          rw [← hk]
          exact ⟨rfl, rfl, List.Sublist.refl a1.characters⟩
  · intro i
    constructor
    · intro a ha
      exact hinv a (List.Sublist.subset (List.eraseIdx_sublist accounts i) ha)
    · exact List.eraseIdx_sublist accounts i

theorem c10_roster_edits_witness :
    selectionInvariant (addCharBtnClick
      [⟨"A", "pw", [⟨"x", 1, true, ""⟩]⟩] 0 "y" 2) :=
  ((c10_roster_edits [⟨"A", "pw", [⟨"x", 1, true, ""⟩]⟩] (by decide)).1 0 "y" 2).1

end AOLauncher